import Mathlib

/-!
# Verification of the finder-scope search/replace engine specification

A shallow embedding, in Lean 4, of the core of the `finder-scope` repository:
the file-search service (`src/services/file_search_service.py`), the
file-replace service (`src/services/file_replace_service.py`), the data models
(`src/models/search_models.py`, `src/models/replace_models.py`) and the
progress computation of the asynchronous search worker
(`src/services/async_search_service.py`).

Modelling conventions:
* Python strings are `List Char` (`Str`); `str.lower()` is modelled as
  per-character lowering (`pyLower`), which preserves length.
* Python's `re` module is abstracted: each call site that compiles a
  user-supplied regex receives an `Option`-valued oracle; `none` models a
  pattern whose compilation raises `re.error` (the source catches exactly that
  and falls back to literal matching), `some f` models the behaviour of the
  compiled pattern object.
* The filesystem is a finite association list from path strings to file
  contents; reading a missing path models the caught read exceptions.
* Exceptions that the source catches locally are modelled by `Option` results;
  functions are total exactly because every exception path in the modelled
  code is caught.
-/

/-- Python strings, modelled as lists of characters. -/
abbrev Str := List Char

/-- `str.lower()`, modelled as per-character lowering. -/
def pyLower (s : Str) : Str := s.map Char.toLower

/-- `str.find(pat, start)`: the least index `i` with `start ≤ i ≤ s.length`
at which `pat` occurs as a (fitting) prefix of `s.drop i`; `none` models
Python's `-1`.  Like Python, the empty pattern is found at `start` whenever
`start ≤ s.length`. -/
def findFrom (s pat : Str) (start : Nat) : Option Nat :=
  (((List.range (s.length + 1 - start)).map (· + start)).find?
    (fun i => pat.isPrefixOf (s.drop i)))

/-- `str.count(pat)` scan from a given start: counts non-overlapping
occurrences left to right, advancing past each match (by one character for the
empty pattern, as Python does).  `fuel` bounds the recursion; every caller
passes `s.length + 2`, which is enough because the scan position strictly
increases and is bounded by `s.length`. -/
def countOccAux (s pat : Str) : Nat → Nat → Nat
  | 0, _ => 0
  | fuel + 1, start =>
    match findFrom s pat start with
    | none => 0
    | some pos => 1 + countOccAux s pat fuel (pos + max pat.length 1)

/-- `str.count(pat)`: number of non-overlapping occurrences of `pat` in `s`. -/
def countOcc (s pat : Str) : Nat := countOccAux s pat (s.length + 2) 0

/-- Global leftmost non-overlapping replacement.  Occurrences are located in
`searchLine` (which is `line` itself for case-sensitive `str.replace`, and
`pyLower line` for the case-insensitive `re.sub(re.escape(pat), repl, text,
IGNORECASE)` path of `_simple_replacement`), while the emitted characters come
from the original `line`; `patLen` characters are consumed per match.  The
empty-pattern case inserts `repl` at every position, as Python's
`str.replace` does. -/
def strReplaceAux (line searchLine searchPat repl : Str) (patLen : Nat) :
    Nat → Nat → Str
  | 0, cur => line.drop cur
  | fuel + 1, cur =>
    match findFrom searchLine searchPat cur with
    | none => line.drop cur
    | some pos =>
      ((line.drop cur).take (pos - cur)) ++ repl ++
        (if patLen = 0 then
          match line.drop pos with
          | [] => []
          | c :: _ => c :: strReplaceAux line searchLine searchPat repl patLen fuel (pos + 1)
        else strReplaceAux line searchLine searchPat repl patLen fuel (pos + patLen))

/-- The last `n` characters of `l` (Python's `l[-n:]` for `n > 0`). -/
def takeLast (n : Nat) (l : Str) : Str := l.drop (l.length - n)

/-- One occurrence record produced by `_simple_line_search` /
`_find_line_matches` (the dict with keys `text`, `start`, `end`, `before`,
`after`; `end` is renamed `stop` here). -/
structure Occ where
  text : Str
  start : Nat
  stop : Nat
  before : Str
  after : Str
deriving Repr, DecidableEq

/-- The scanning loop of `FileSearchService._simple_line_search`: find the
pattern in `searchLine` from `start`, record the occurrence (text and
contexts sliced from the original `line`, width-20 contexts, `end = pos +
len(pattern)`), then continue from `pos + 1`.  `fuel` bounds the recursion;
callers pass `searchLine.length + 2`, which suffices since the scan position
strictly increases and is bounded by `searchLine.length`. -/
def simpleSearchAux (line searchLine searchPat : Str) (patLen : Nat) :
    Nat → Nat → List Occ
  | 0, _ => []
  | fuel + 1, start =>
    match findFrom searchLine searchPat start with
    | none => []
    | some pos =>
      { text := (line.drop pos).take patLen
        start := pos
        stop := pos + patLen
        before := takeLast 20 (line.take pos)
        after := (line.drop (pos + patLen)).take 20 } ::
        simpleSearchAux line searchLine searchPat patLen fuel (pos + 1)

/-- `FileSearchService._simple_line_search(line, pattern, case_sensitive)`. -/
def simple_line_search (line pat : Str) (case_sensitive : Bool) : List Occ :=
  let searchLine := if case_sensitive then line else pyLower line
  let searchPat := if case_sensitive then pat else pyLower pat
  simpleSearchAux line searchLine searchPat pat.length (searchLine.length + 2) 0

/-- `FileSearchService._find_line_matches`: regex mode consults the compiled
pattern's `finditer` (the oracle); on compile failure (`none`, i.e. the
`re.error` branch) and in literal mode it runs `_simple_line_search`. -/
def find_line_matches (rfinditer : Option (Str → List Occ)) (line pat : Str)
    (use_regex case_sensitive : Bool) : List Occ :=
  if use_regex then
    match rfinditer with
    | some f => f line
    | none => simple_line_search line pat case_sensitive
  else simple_line_search line pat case_sensitive

/-- `FileSearchService._simple_match(text, pattern, case_sensitive)`:
Python's `pattern in text` after optional lowering of both sides. -/
def simple_match (text pat : Str) (case_sensitive : Bool) : Bool :=
  let t := if case_sensitive then text else pyLower text
  let p := if case_sensitive then pat else pyLower pat
  (findFrom t p 0).isSome

/-- `FileSearchService._matches_filename`: regex mode consults the compiled
pattern's `search` (the oracle); on compile failure (`none`, the `re.error`
branch) and in literal mode it runs `_simple_match`. -/
def matches_filename (rsearch : Option (Str → Bool)) (filename pat : Str)
    (use_regex case_sensitive : Bool) : Bool :=
  if use_regex then
    match rsearch with
    | some f => f filename
    | none => simple_match filename pat case_sensitive
  else simple_match filename pat case_sensitive

/-- `FileReplaceService._simple_replacement`: case-insensitive mode counts
occurrences on the lowered strings and, when the count is nonzero, substitutes
via the escaped-pattern `re.sub` with `IGNORECASE` (modelled by the generic
scan on the lowered search line); case-sensitive mode is `str.count` plus
`str.replace`. -/
def simple_replacement (text pat repl : Str) (case_sensitive : Bool) :
    Str × Nat :=
  if case_sensitive then
    (strReplaceAux text text pat repl pat.length (text.length + 2) 0,
      countOcc text pat)
  else
    let count := countOcc (pyLower text) (pyLower pat)
    if count = 0 then (text, 0)
    else
      (strReplaceAux text (pyLower text) (pyLower pat) repl pat.length
        (text.length + 2) 0, count)

/-- `FileReplaceService._perform_replacement`: regex mode consults the
compiled pattern's `subn` (the oracle); on compile failure (`none`, the
`re.error` branch) and in literal mode it runs `_simple_replacement`. -/
def perform_replacement (rsubn : Option (Str → Str × Nat))
    (text pat repl : Str) (use_regex case_sensitive : Bool) : Str × Nat :=
  if use_regex then
    match rsubn with
    | some f => f text
    | none => simple_replacement text pat repl case_sensitive
  else simple_replacement text pat repl case_sensitive

/-- `ContentMatch` (`src/models/search_models.py`): one occurrence within one
line; dates are modelled as integers. -/
structure ContentMatch where
  line_number : Nat
  matched_text : Str
  context_before : Str
  context_after : Str
  start_position : Nat
  end_position : Nat
deriving Repr, DecidableEq

/-- `SearchCriteria` (`src/models/search_models.py`).  `target_folder` is not
carried: enumeration results are passed to the search explicitly.  The
optional string fields are modelled as `Str` where `[]` stands for both
`None` and the empty string (both falsy under the source's `if
criteria.filename_pattern:` tests).  Timestamps are integers. -/
structure SearchCriteria where
  filename_pattern : Str
  file_extensions : List Str
  date_from : Option Int
  date_to : Option Int
  content_pattern : Str
  use_regex : Bool
  case_sensitive : Bool
  include_subdirectories : Bool
deriving Repr, DecidableEq

/-- The extension normalisation of `SearchCriteria.__post_init__`: prepend a
dot to any extension not already starting with one (the directory-existence
checks of `__post_init__` concern the real filesystem and are outside the
model). -/
def normalizeExtensions (exts : List Str) : List Str :=
  exts.map (fun e => if e.head? = some '.' then e else '.' :: e)

/-- `SearchCriteria` construction (`__post_init__` applied). -/
def mkSearchCriteria (filename_pattern : Str) (file_extensions : List Str)
    (date_from date_to : Option Int) (content_pattern : Str)
    (use_regex case_sensitive include_subdirectories : Bool) : SearchCriteria :=
  { filename_pattern := filename_pattern
    file_extensions := normalizeExtensions file_extensions
    date_from := date_from
    date_to := date_to
    content_pattern := content_pattern
    use_regex := use_regex
    case_sensitive := case_sensitive
    include_subdirectories := include_subdirectories }

/-- One filesystem entry as yielded by `Path.rglob("*")` / `Path.iterdir()`:
its path together with the metadata the service queries lazily.  `isDir` and
`isFile` mirror the outcome of `Path.is_file()`; `statOk` is false when
`Path.stat()` would raise `OSError`/`PermissionError`; `lines` is `some` of
the decoded text lines when the file can be opened as text and `none` when
opening raises (the `errors='ignore'` decoding never raises on its own). -/
structure Entry where
  path : Str
  name : Str
  parent : Str
  suffix : Str
  isDir : Bool
  isFile : Bool
  statOk : Bool
  mtime : Int
  size : Nat
  lines : Option (List Str)
deriving Repr, DecidableEq

/-- The dict returned by `FileSearchService._get_file_info`. -/
structure FileInfo where
  modified_date : Int
  file_size : Nat
deriving Repr, DecidableEq

/-- `FileSearchService._get_file_info`: `none` for non-files and for entries
whose `stat` raises (the caught `OSError`/`PermissionError`). -/
def get_file_info (e : Entry) : Option FileInfo :=
  if !e.isFile then none
  else if !e.statOk then none
  else some { modified_date := e.mtime, file_size := e.size }

/-- `FileSearchService._matches_criteria`: filename pattern (if truthy),
extension membership after lowering both sides (if the extension list is
nonempty), and the inclusive date-range checks. -/
def matches_criteria (rsearch : Option (Str → Bool)) (e : Entry)
    (info : FileInfo) (c : SearchCriteria) : Bool :=
  (if c.filename_pattern = [] then true
   else matches_filename rsearch e.name c.filename_pattern c.use_regex c.case_sensitive) &&
  (if c.file_extensions = [] then true
   else decide (pyLower e.suffix ∈ c.file_extensions.map pyLower)) &&
  (match c.date_from with
   | some d => !decide (info.modified_date < d)
   | none => true) &&
  (match c.date_to with
   | some d => !decide (d < info.modified_date)
   | none => true)

/-- `FileSearchService._search_file_content` (without mid-file cancellation):
unreadable files yield `[]` (the caught decode/permission/OS errors); readable
files are scanned line by line with 1-based numbering, each occurrence
becoming a `ContentMatch`. -/
def search_file_content (rfinditer : Option (Str → List Occ)) (e : Entry)
    (c : SearchCriteria) : List ContentMatch :=
  match e.lines with
  | none => []
  | some lines =>
    (List.enumFrom 1 lines).flatMap (fun p =>
      (find_line_matches rfinditer p.2 c.content_pattern c.use_regex c.case_sensitive).map
        (fun o =>
          { line_number := p.1
            matched_text := o.text
            context_before := o.before
            context_after := o.after
            start_position := o.start
            end_position := o.stop }))

/-- `FileMatch` (`src/models/search_models.py`); `__post_init__` derives
`filename` and `folder_path` from `file_path`, which `_create_file_match`
reproduces. -/
structure FileMatch where
  file_path : Str
  filename : Str
  folder_path : Str
  modified_date : Int
  file_size : Nat
  matchesList : List ContentMatch
deriving Repr, DecidableEq

/-- `FileSearchService._create_file_match`. -/
def create_file_match (rfinditer : Option (Str → List Occ)) (e : Entry)
    (info : FileInfo) (c : SearchCriteria) : FileMatch :=
  { file_path := e.path
    filename := e.name
    folder_path := e.parent
    modified_date := info.modified_date
    file_size := info.file_size
    matchesList := if c.content_pattern = [] then []
               else search_file_content rfinditer e c }

/-- `SearchResult` (`src/models/search_models.py`); the criteria reference is
dropped and the wall-clock duration is an integer threaded through the
model. -/
structure SearchResult where
  matchesList : List FileMatch
  search_duration : Int
  total_files_scanned : Nat
deriving Repr, DecidableEq

/-- One iteration of the loop body of `FileSearchService.search`: increment
`total_files_scanned` for the enumerated entry (before any file-type check),
then skip entries without file info, then filter and accumulate. -/
def searchStep (rsearch : Option (Str → Bool)) (rfinditer : Option (Str → List Occ))
    (c : SearchCriteria) (acc : SearchResult) (e : Entry) : SearchResult :=
  let acc := { acc with total_files_scanned := acc.total_files_scanned + 1 }
  match get_file_info e with
  | none => acc
  | some info =>
    if matches_criteria rsearch e info c then
      { acc with matchesList := acc.matchesList ++ [create_file_match rfinditer e info c] }
    else acc

/-- The cancellable loop of `FileSearchService.search`.  `cancelAt = some k`
models the cooperative flag being set once `k` entries have been processed:
the check at the top of iteration `i` (0-based) observes cancellation iff
`k ≤ i`, and the loop then breaks without raising. -/
def searchLoop (rsearch : Option (Str → Bool)) (rfinditer : Option (Str → List Occ))
    (c : SearchCriteria) (cancelAt : Option Nat) :
    List Entry → Nat → SearchResult → SearchResult
  | [], _, acc => acc
  | e :: rest, i, acc =>
    if (match cancelAt with
        | none => false
        | some k => decide (k ≤ i)) then acc
    else searchLoop rsearch rfinditer c cancelAt rest (i + 1)
        (searchStep rsearch rfinditer c acc e)

/-- `FileSearchService.search`: run the loop over the enumerated entries and,
in the `finally` block, unconditionally record the elapsed duration; the
(possibly partial) result is returned, cancellation included. -/
def search (rsearch : Option (Str → Bool)) (rfinditer : Option (Str → List Occ))
    (entries : List Entry) (c : SearchCriteria) (cancelAt : Option Nat)
    (elapsed : Int) : SearchResult :=
  let r := searchLoop rsearch rfinditer c cancelAt entries 0
    { matchesList := [], search_duration := 0, total_files_scanned := 0 }
  { r with search_duration := elapsed }

/-- The filesystem: a finite association of path strings to text contents. -/
abbrev FS := List (Str × Str)

/-- Read a file's content; `none` when the path does not exist (modelling the
raised-and-caught read errors). -/
def lookupFS : FS → Str → Option Str
  | [], _ => none
  | (q, c) :: rest, p => if q = p then some c else lookupFS rest p

/-- Overwrite (or create) a file. -/
def writeFS (fs : FS) (p c : Str) : FS :=
  (p, c) :: fs.filter (fun e => decide (e.1 ≠ p))

/-- `ReplaceOperation` (`src/models/replace_models.py`). -/
structure ReplaceOperation where
  search_pattern : Str
  replace_text : Str
  target_files : List FileMatch
  use_regex : Bool
  case_sensitive : Bool
  create_backup : Bool
  backup_suffix : Str
deriving Repr, DecidableEq

/-- `ReplaceOperation.file_count`. -/
def ReplaceOperation.file_count (op : ReplaceOperation) : Nat :=
  op.target_files.length

/-- `ReplaceOperation.add_target_file`: appends unless an equal `FileMatch`
(Python dataclass equality, i.e. equality of every field) is already
present. -/
def add_target_file (op : ReplaceOperation) (fm : FileMatch) : ReplaceOperation :=
  if fm ∈ op.target_files then op
  else { op with target_files := op.target_files ++ [fm] }

/-- `ReplaceResult` (`src/models/replace_models.py`); the operation reference
is dropped and failure messages are kept abstractly as strings. -/
structure ReplaceResult where
  processed_files : List Str
  failed_files : List (Str × Str)
  total_replacements : Nat
  backup_files : List Str
deriving Repr, DecidableEq

/-- `ReplaceResult.success_count`. -/
def ReplaceResult.success_count (r : ReplaceResult) : Nat :=
  r.processed_files.length

/-- `ReplaceResult.error_count`. -/
def ReplaceResult.error_count (r : ReplaceResult) : Nat :=
  r.failed_files.length

/-- `ReplaceResult.add_success`. -/
def add_success (r : ReplaceResult) (p : Str) (cnt : Nat) (bp : Option Str) :
    ReplaceResult :=
  { r with
    processed_files := r.processed_files ++ [p]
    total_replacements := r.total_replacements + cnt
    backup_files := r.backup_files ++ (match bp with | some b => [b] | none => []) }

/-- `ReplaceResult.add_error`. -/
def add_error (r : ReplaceResult) (p msg : Str) : ReplaceResult :=
  { r with failed_files := r.failed_files ++ [(p, msg)] }

/-- The single error message used by the model where the source raises one of
its three Japanese per-file read/write error messages (their exact text is
immaterial to every claim). -/
def readErrorMessage : Str := ("file access error".toList)

/-- The decimal digits of `n`. -/
def natChars (n : Nat) : Str := Nat.toDigits 10 n

/-- The numeric-disambiguation loop of `FileReplaceService._create_backup`:
try `base.1`, `base.2`, … until a name not present in the filesystem is found.
`fuel` (always `fs.length + 1`) bounds the loop; it suffices because the
candidate names are pairwise distinct while `fs` holds finitely many paths. -/
def freeBackupAux (fs : FS) (base : Str) : Nat → Nat → Str
  | 0, k => base ++ ('.' :: natChars k)
  | fuel + 1, k =>
    let cand := base ++ ('.' :: natChars k)
    if (lookupFS fs cand).isSome then freeBackupAux fs base fuel (k + 1)
    else cand

/-- The backup path chosen by `FileReplaceService._create_backup`:
`file_path.with_suffix(file_path.suffix + backup_suffix)` — which, the final
suffix being re-appended unchanged, is `path ++ backup_suffix` — disambiguated
with `.1`, `.2`, … while a file already exists there. -/
def create_backup_path (fs : FS) (path bakSuffix : Str) : Str :=
  let base := path ++ bakSuffix
  if (lookupFS fs base).isSome then freeBackupAux fs base (fs.length + 1) 1
  else base

/-- `FileReplaceService._create_backup`: choose the backup path, then
`shutil.copy2` the file's *current* bytes to it.  Callers only invoke this on
an existing path, so the `getD` default is never reached. -/
def create_backup (fs : FS) (path bakSuffix : Str) : FS × Str :=
  let bp := create_backup_path fs path bakSuffix
  (writeFS fs bp ((lookupFS fs path).getD []), bp)

/-- `FileReplaceService._replace_in_file`: read the file (`none` = the
re-raised read error, caught by the caller), compute the substitution, and
write the new content back only when the count is positive. -/
def replace_in_file (rsubn : Option (Str → Str × Nat)) (fs : FS) (path : Str)
    (op : ReplaceOperation) : Option (FS × Nat) :=
  match lookupFS fs path with
  | none => none
  | some content =>
    let r := perform_replacement rsubn content op.search_pattern op.replace_text
      op.use_regex op.case_sensitive
    if r.2 > 0 then some (writeFS fs path r.1, r.2) else some (fs, r.2)

/-- One iteration of the loop of `FileReplaceService.replace`: replace in the
file, then — only afterwards, the source calling `_create_backup` *after*
`_replace_in_file` has already written the new content — create the backup
when requested and the count is positive, and record success; a read failure
records an error and continues. -/
def replaceStep (rsubn : Option (Str → Str × Nat)) (op : ReplaceOperation)
    (st : FS × ReplaceResult) (fm : FileMatch) : FS × ReplaceResult :=
  match replace_in_file rsubn st.1 fm.file_path op with
  | none => (st.1, add_error st.2 fm.file_path readErrorMessage)
  | some (fs1, cnt) =>
    if op.create_backup && decide (cnt > 0) then
      let bk := create_backup fs1 fm.file_path op.backup_suffix
      (bk.1, add_success st.2 fm.file_path cnt (some bk.2))
    else (fs1, add_success st.2 fm.file_path cnt none)

/-- `FileReplaceService.replace` (run without cancellation; the outer
catch-all branch is unreachable in the model since every per-file exception is
already handled by the inner handler): fold the per-file step over the
operation's target files. -/
def replace (rsubn : Option (Str → Str × Nat)) (fs : FS)
    (op : ReplaceOperation) : FS × ReplaceResult :=
  op.target_files.foldl (replaceStep rsubn op)
    (fs, { processed_files := [], failed_files := [], total_replacements := 0,
           backup_files := [] })

/-- `FileReplaceService._get_original_path_from_backup`: strip a final
`.bak`; otherwise take the part before the first `.bak.`; otherwise `none`. -/
def get_original_path_from_backup (p : Str) : Option Str :=
  if (".bak".toList).isSuffixOf p then some (p.take (p.length - 4))
  else
    match findFrom p (".bak.".toList) 0 with
    | some i => some (p.take i)
    | none => none

/-- `FileReplaceService.restore_from_backup`: derive the original path from
the `.bak` convention; copy the backup's bytes over the original only when
the derived original exists (a missing backup makes `shutil.copy2` raise,
which the catch-all turns into `false` with no write). -/
def restore_from_backup (fs : FS) (backupPath : Str) : FS × Bool :=
  match get_original_path_from_backup backupPath with
  | none => (fs, false)
  | some orig =>
    if (lookupFS fs orig).isSome then
      match lookupFS fs backupPath with
      | some content => (writeFS fs orig content, true)
      | none => (fs, false)
    else (fs, false)

/-- The per-entry progress emissions of
`SearchWorker._search_with_progress`: an entry without file info is skipped
(`continue`) before `processed_count` is incremented, so it emits nothing;
otherwise the incremented count yields `10 + int(processed/total * 80)`
(exact truncated arithmetic, i.e. `Nat` division). -/
def progressBody (total : Nat) : List Entry → Nat → List Nat
  | [], _ => []
  | e :: rest, processed =>
    match get_file_info e with
    | none => progressBody total rest processed
    | some _ =>
      (10 + ((processed + 1) * 80) / total) :: progressBody total rest (processed + 1)

/-- The full sequence of progress percentages emitted by one run of
`SearchWorker._search_with_progress`: `0` before enumeration; `100`
immediately when no files were enumerated; otherwise `10` after
materialisation, the per-entry values for the entries processed before
cancellation (`cancelAt` as in `searchLoop`), and `100` only on natural
(non-cancelled) completion. -/
def progressSeq (entries : List Entry) (cancelAt : Option Nat) : List Nat :=
  let total := entries.length
  if total = 0 then [0, 100]
  else
    let n := match cancelAt with | none => total | some k => min k total
    0 :: 10 :: (progressBody total (entries.take n) 0 ++
      (if cancelAt.isNone then [100] else []))

/-- Entry constructor for concrete examples: a plain entry at `path` that is a
directory or a regular statable file with no content lines. -/
def mkEntry (path : Str) (d f : Bool) : Entry :=
  { path := path, name := path, parent := [], suffix := [], isDir := d,
    isFile := f, statOk := true, mtime := 0, size := 0, lines := none }

/-- A criteria value with every filter disabled (literal mode). -/
def critAll : SearchCriteria :=
  mkSearchCriteria [] [] none none [] false false true

/-- C1 example: a target file holding `"Original content"`. -/
def fmEx1 : FileMatch :=
  { file_path := ("t.txt".toList), filename := ("t.txt".toList),
    folder_path := [], modified_date := 0, file_size := 16, matchesList := [] }

/-- C1 example: replace `"Original"` by `"Modified"` with backups enabled. -/
def opEx1 : ReplaceOperation :=
  { search_pattern := ("Original".toList), replace_text := ("Modified".toList),
    target_files := [fmEx1], use_regex := false, case_sensitive := true,
    create_backup := true, backup_suffix := (".bak".toList) }

/-- C1 example filesystem. -/
def fsEx1 : FS := [(("t.txt".toList), ("Original content".toList))]

/-- C2 example: one directory entry and one file entry. -/
def dirEx2 : Entry := mkEntry ("d".toList) true false

/-- C2 example file entry. -/
def fileEx2 : Entry := mkEntry ("a.txt".toList) false true

/-- C4 example: two target records for the same path differing in size. -/
def fmEx4a : FileMatch :=
  { file_path := ("p".toList), filename := ("p".toList), folder_path := [],
    modified_date := 0, file_size := 1, matchesList := [] }

/-- C4 example, second record at the same path. -/
def fmEx4b : FileMatch :=
  { file_path := ("p".toList), filename := ("p".toList), folder_path := [],
    modified_date := 0, file_size := 2, matchesList := [] }

/-- C4 example operation built through `add_target_file`. -/
def opEx4 : ReplaceOperation :=
  add_target_file (add_target_file
    { search_pattern := ("a".toList), replace_text := ("b".toList),
      target_files := [], use_regex := false, case_sensitive := true,
      create_backup := false, backup_suffix := (".bak".toList) } fmEx4a) fmEx4b

/-- C4 example filesystem. -/
def fsEx4 : FS := [(("p".toList), ("a".toList))]

/-- C7 example: target file `"q"` holding `"a"`. -/
def fmEx7 : FileMatch :=
  { file_path := ("q".toList), filename := ("q".toList), folder_path := [],
    modified_date := 0, file_size := 1, matchesList := [] }

/-- C7 example: replacing `"a"` by `"aa"` reintroduces the pattern. -/
def opEx7 : ReplaceOperation :=
  { search_pattern := ("a".toList), replace_text := ("aa".toList),
    target_files := [fmEx7], use_regex := false, case_sensitive := true,
    create_backup := false, backup_suffix := (".bak".toList) }

/-- C7 example filesystem. -/
def fsEx7 : FS := [(("q".toList), ("a".toList))]

/-- C7 witness: a target whose pattern does not occur at all. -/
def fmEx7w : FileMatch :=
  { file_path := ("w".toList), filename := ("w".toList), folder_path := [],
    modified_date := 0, file_size := 2, matchesList := [] }

/-- C7 witness operation: replace `"x"` by `"y"` in a file without `"x"`. -/
def opEx7w : ReplaceOperation :=
  { search_pattern := ("x".toList), replace_text := ("y".toList),
    target_files := [fmEx7w], use_regex := false, case_sensitive := true,
    create_backup := false, backup_suffix := (".bak".toList) }

/-- C7 witness filesystem. -/
def fsEx7w : FS := [(("w".toList), ("ab".toList))]

/-- C4 witness operation: a single target, so target paths are distinct. -/
def opEx4w : ReplaceOperation :=
  { search_pattern := ("a".toList), replace_text := ("b".toList),
    target_files := [fmEx4a], use_regex := false, case_sensitive := true,
    create_backup := false, backup_suffix := (".bak".toList) }

/-- The number of occurrences of the path `p` in a list of paths (used to
state the at-most-once claims without depending on a `BEq` instance). -/
def pathCount (p : Str) (l : List Str) : Nat :=
  (l.filter (fun q => decide (q = p))).length

theorem searchStep_scanned (rs : Option (Str → Bool)) (rf : Option (Str → List Occ))
    (c : SearchCriteria) (acc : SearchResult) (e : Entry) :
    (searchStep rs rf c acc e).total_files_scanned = acc.total_files_scanned + 1 := by
  unfold searchStep
  cases h : get_file_info e
  · rfl
  · dsimp only
    split <;> rfl

theorem searchStep_matches_le (rs : Option (Str → Bool)) (rf : Option (Str → List Occ))
    (c : SearchCriteria) (acc : SearchResult) (e : Entry) :
    (searchStep rs rf c acc e).matchesList.length ≤ acc.matchesList.length + 1 := by
  unfold searchStep
  cases h : get_file_info e
  · exact Nat.le_succ _
  · dsimp only
    split
    · simp
    · exact Nat.le_succ _

theorem searchLoop_nocancel_scanned (rs : Option (Str → Bool))
    (rf : Option (Str → List Occ)) (c : SearchCriteria) :
    ∀ (entries : List Entry) (i : Nat) (acc : SearchResult),
      (searchLoop rs rf c none entries i acc).total_files_scanned
        = acc.total_files_scanned + entries.length
  | [], i, acc => rfl
  | e :: rest, i, acc => by
    rw [searchLoop]
    split
    · simp_all
    · rw [searchLoop_nocancel_scanned rs rf c rest (i + 1) _, searchStep_scanned]
      simp only [List.length_cons]
      omega

theorem searchLoop_nocancel_matches (rs : Option (Str → Bool))
    (rf : Option (Str → List Occ)) (c : SearchCriteria) :
    ∀ (entries : List Entry) (i : Nat) (acc : SearchResult),
      (searchLoop rs rf c none entries i acc).matchesList.length
        ≤ acc.matchesList.length + entries.length
  | [], i, acc => Nat.le_refl _
  | e :: rest, i, acc => by
    rw [searchLoop]
    split
    · simp_all
    · have h1 := searchLoop_nocancel_matches rs rf c rest (i + 1)
        (searchStep rs rf c acc e)
      have h2 := searchStep_matches_le rs rf c acc e
      simp only [List.length_cons]
      omega

theorem searchLoop_cancel_scanned (rs : Option (Str → Bool))
    (rf : Option (Str → List Occ)) (c : SearchCriteria) (k : Nat) :
    ∀ (entries : List Entry) (i : Nat) (acc : SearchResult), i ≤ k →
      (searchLoop rs rf c (some k) entries i acc).total_files_scanned
        = acc.total_files_scanned + min (k - i) entries.length
  | [], i, acc, _ => by simp [searchLoop]
  | e :: rest, i, acc, hik => by
    rw [searchLoop]
    split
    · next hc =>
      have hki : k ≤ i := by simpa using hc
      have hk : k = i := Nat.le_antisymm hki hik
      simp [hk]
    · next hc =>
      have hki : ¬ k ≤ i := by simpa using hc
      rw [searchLoop_cancel_scanned rs rf c k rest (i + 1) _ (by omega),
        searchStep_scanned]
      simp only [List.length_cons]
      omega

theorem pathCount_append (p : Str) (l1 l2 : List Str) :
    pathCount p (l1 ++ l2) = pathCount p l1 + pathCount p l2 := by
  simp [pathCount, List.filter_append]

theorem pathCount_nil (p : Str) : pathCount p [] = 0 := rfl

theorem pathCount_cons (p x : Str) (l : List Str) :
    pathCount p (x :: l) = pathCount p [x] + pathCount p l := by
  have h : x :: l = [x] ++ l := rfl
  rw [h, pathCount_append]

theorem replaceStep_record (rsubn : Option (Str → Str × Nat)) (op : ReplaceOperation)
    (st : FS × ReplaceResult) (fm : FileMatch) :
    ((replaceStep rsubn op st fm).2.processed_files.length
        + (replaceStep rsubn op st fm).2.failed_files.length
      = st.2.processed_files.length + st.2.failed_files.length + 1)
    ∧ ∀ p : Str,
      pathCount p (replaceStep rsubn op st fm).2.processed_files
          + pathCount p ((replaceStep rsubn op st fm).2.failed_files.map Prod.fst)
        = pathCount p st.2.processed_files
          + pathCount p (st.2.failed_files.map Prod.fst)
          + pathCount p [fm.file_path] := by
  unfold replaceStep
  cases h : replace_in_file rsubn st.1 fm.file_path op with
  | none =>
    refine ⟨?_, fun p => ?_⟩ <;>
      (simp [add_error, pathCount_append]; omega)
  | some v =>
    obtain ⟨fs1, cnt⟩ := v
    dsimp only
    split <;>
      (refine ⟨?_, fun p => ?_⟩ <;>
        (simp [add_success, pathCount_append]; omega))

theorem replace_fold_record (rsubn : Option (Str → Str × Nat)) (op : ReplaceOperation) :
    ∀ (targets : List FileMatch) (st : FS × ReplaceResult),
      ((targets.foldl (replaceStep rsubn op) st).2.processed_files.length
          + (targets.foldl (replaceStep rsubn op) st).2.failed_files.length
        = st.2.processed_files.length + st.2.failed_files.length + targets.length)
      ∧ ∀ p : Str,
        pathCount p (targets.foldl (replaceStep rsubn op) st).2.processed_files
            + pathCount p ((targets.foldl (replaceStep rsubn op) st).2.failed_files.map Prod.fst)
          = pathCount p st.2.processed_files
            + pathCount p (st.2.failed_files.map Prod.fst)
            + pathCount p (targets.map FileMatch.file_path)
  | [], st => by simp [pathCount]
  | fm :: rest, st => by
    simp only [List.foldl_cons, List.map_cons, List.length_cons]
    have hstep := replaceStep_record rsubn op st fm
    have hrest := replace_fold_record rsubn op rest (replaceStep rsubn op st fm)
    refine ⟨by omega, fun p => ?_⟩
    have h1 := hstep.2 p
    have h2 := hrest.2 p
    rw [pathCount_cons p fm.file_path (rest.map FileMatch.file_path)]
    omega

theorem replace_in_file_zero (rsubn : Option (Str → Str × Nat)) (op : ReplaceOperation)
    (fs : FS) (path content : Str)
    (hread : lookupFS fs path = some content)
    (hzero : (perform_replacement rsubn content op.search_pattern op.replace_text
      op.use_regex op.case_sensitive).2 = 0) :
    replace_in_file rsubn fs path op = some (fs, 0) := by
  unfold replace_in_file
  rw [hread]
  simp [hzero]

theorem replaceStep_zero (rsubn : Option (Str → Str × Nat)) (op : ReplaceOperation)
    (st : FS × ReplaceResult) (fm : FileMatch) (content : Str)
    (hread : lookupFS st.1 fm.file_path = some content)
    (hzero : (perform_replacement rsubn content op.search_pattern op.replace_text
      op.use_regex op.case_sensitive).2 = 0) :
    replaceStep rsubn op st fm = (st.1, add_success st.2 fm.file_path 0 none) := by
  unfold replaceStep
  rw [replace_in_file_zero rsubn op st.1 fm.file_path content hread hzero]
  simp

theorem replace_foldl_no_occ (rsubn : Option (Str → Str × Nat)) (op : ReplaceOperation)
    (fs1 : FS) :
    ∀ (targets : List FileMatch) (res : ReplaceResult),
      (∀ fm ∈ targets, ∃ c, lookupFS fs1 fm.file_path = some c ∧
        (perform_replacement rsubn c op.search_pattern op.replace_text
          op.use_regex op.case_sensitive).2 = 0) →
      targets.foldl (replaceStep rsubn op) (fs1, res)
        = (fs1, targets.foldl (fun r fm => add_success r fm.file_path 0 none) res)
  | [], res, _ => rfl
  | fm :: rest, res, H => by
    obtain ⟨c, hc, hz⟩ := H fm (List.mem_cons_self _ _)
    simp only [List.foldl_cons]
    rw [replaceStep_zero rsubn op (fs1, res) fm c hc hz]
    exact replace_foldl_no_occ rsubn op fs1 rest _
      (fun g hg => H g (List.mem_cons_of_mem _ hg))

theorem foldl_add_success_stats :
    ∀ (targets : List FileMatch) (res : ReplaceResult),
      (targets.foldl (fun r fm => add_success r fm.file_path 0 none) res).total_replacements
          = res.total_replacements
      ∧ (targets.foldl (fun r fm => add_success r fm.file_path 0 none) res).processed_files.length
          = res.processed_files.length + targets.length
  | [], res => ⟨rfl, rfl⟩
  | fm :: rest, res => by
    simp only [List.foldl_cons]
    have h := foldl_add_success_stats rest (add_success res fm.file_path 0 none)
    refine ⟨?_, ?_⟩
    · rw [h.1]; simp [add_success]
    · rw [h.2]; simp [add_success]; omega

theorem pathCount_zero_of_not_mem (p : Str) :
    ∀ l : List Str, p ∉ l → pathCount p l = 0
  | [], _ => rfl
  | x :: l, h => by
    rw [pathCount_cons]
    have hx : ¬ x = p := fun e => h (e ▸ List.mem_cons_self x l)
    have h2 : p ∉ l := fun m => h (List.mem_cons_of_mem _ m)
    have hone : pathCount p [x] = 0 := by
      simp [pathCount, hx]
    rw [hone, pathCount_zero_of_not_mem p l h2]

theorem pathCount_le_one_of_nodup (p : Str) :
    ∀ l : List Str, l.Nodup → pathCount p l ≤ 1
  | [], _ => Nat.zero_le 1
  | x :: l, h => by
    rw [pathCount_cons]
    obtain ⟨hx, hl⟩ := List.nodup_cons.mp h
    by_cases hxp : x = p
    · subst hxp
      rw [pathCount_zero_of_not_mem x l hx]
      simp [pathCount]
    · have hone : pathCount p [x] = 0 := by
        simp [pathCount, hxp]
      rw [hone]
      simpa using pathCount_le_one_of_nodup p l hl

/-- C1: REFUTED (code bug) — on a file holding `"Original content"`, a
replace of `"Original"` by `"Modified"` with `create_backup = true` produces
a backup at `t.txt.bak` holding the *replaced* bytes `"Modified content"`,
because `FileReplaceService.replace` calls `_create_backup` only after
`_replace_in_file` has already overwritten the file; consequently
`restore_from_backup` on the produced backup path leaves the replaced, not
the original, content in place.  The repository's own test
`test_backup_creation` asserts the backup equals the original content, so the
code contradicts its tests. -/
theorem C1_backup_contains_replaced_content :
    lookupFS (replace none fsEx1 opEx1).1 ("t.txt.bak".toList)
        = some ("Modified content".toList)
    ∧ lookupFS fsEx1 ("t.txt".toList) = some ("Original content".toList)
    ∧ (replace none fsEx1 opEx1).2.total_replacements = 1
    ∧ ("Modified content".toList) ≠ ("Original content".toList)
    ∧ (restore_from_backup (replace none fsEx1 opEx1).1 ("t.txt.bak".toList)).2 = true
    ∧ lookupFS (restore_from_backup (replace none fsEx1 opEx1).1
        ("t.txt.bak".toList)).1 ("t.txt".toList)
        = some ("Modified content".toList) := by decide

/-- C2 counterexample: with one directory entry and one file entry the loop
scans 2 entries while only 1 enumerated entry is a non-directory, so
`total_files_scanned` does not equal the number of non-directory entries. -/
theorem C2_counterexample :
    (search none none [dirEx2, fileEx2] critAll none 0).total_files_scanned
      ≠ (([dirEx2, fileEx2].filter (fun e => !e.isDir)).length) := by decide

/-- C2 (amended): `total_files_scanned` is incremented exactly once for every
enumerated entry — directories included, since the increment precedes the
`is_file` check — so an uncancelled search returns it equal to the number of
enumerated entries, and the number of matches never exceeds it. -/
theorem C2_scanned_counts_every_entry (rs : Option (Str → Bool))
    (rf : Option (Str → List Occ)) (entries : List Entry) (c : SearchCriteria)
    (elapsed : Int) :
    (search rs rf entries c none elapsed).total_files_scanned = entries.length
    ∧ (search rs rf entries c none elapsed).matchesList.length
        ≤ (search rs rf entries c none elapsed).total_files_scanned := by
  unfold search
  dsimp only
  have h1 := searchLoop_nocancel_scanned rs rf c entries 0
    { matchesList := [], search_duration := 0, total_files_scanned := 0 }
  have h2 := searchLoop_nocancel_matches rs rf c entries 0
    { matchesList := [], search_duration := 0, total_files_scanned := 0 }
  simp only [List.length_nil] at h1 h2
  constructor
  · omega
  · omega

/-- C4 counterexample: two `FileMatch` records at the same path that differ in
`file_size` both survive `add_target_file` (Python dataclass equality compares
all fields, so deduplication is not by path), and the produced `ReplaceResult`
then lists that path twice in `processed_files`. -/
theorem C4_counterexample :
    opEx4.target_files.map FileMatch.file_path = [("p".toList), ("p".toList)]
    ∧ pathCount ("p".toList) (replace none fsEx4 opEx4).2.processed_files = 2 := by
  decide

/-- C4 (amended): each target file contributes exactly one entry across
`processed_files` and `failed_files` (so their sizes sum to the target count),
and whenever the target paths are pairwise distinct, each path appears in at
most one of the two lists and at most once overall; deduplication in
`add_target_file` is by whole-record equality, not by path. -/
theorem C4_each_target_once (rsubn : Option (Str → Str × Nat)) (fs : FS)
    (op : ReplaceOperation) :
    ((replace rsubn fs op).2.success_count + (replace rsubn fs op).2.error_count
      = op.file_count)
    ∧ ((op.target_files.map FileMatch.file_path).Nodup →
        ∀ p : Str, pathCount p (replace rsubn fs op).2.processed_files
          + pathCount p ((replace rsubn fs op).2.failed_files.map Prod.fst) ≤ 1) := by
  unfold replace
  have h := replace_fold_record rsubn op op.target_files
    (fs, { processed_files := [], failed_files := [], total_replacements := 0,
           backup_files := [] })
  constructor
  · have h1 := h.1
    simp only [ReplaceResult.success_count, ReplaceResult.error_count,
      ReplaceOperation.file_count]
    dsimp only at h1
    simp only [List.length_nil] at h1
    omega
  · intro hnd p
    have h2 := h.2 p
    have hc : pathCount p (op.target_files.map FileMatch.file_path) ≤ 1 :=
      pathCount_le_one_of_nodup p _ hnd
    dsimp only at h2
    simp only [List.map_nil, pathCount_nil] at h2
    omega

/-- C4 witness: the amended statement evaluated on a single-target operation
with (trivially) pairwise-distinct target paths. -/
theorem C4_each_target_once_witness :
    ((replace none fsEx4 opEx4w).2.success_count
        + (replace none fsEx4 opEx4w).2.error_count = opEx4w.file_count)
    ∧ (pathCount ("p".toList) (replace none fsEx4 opEx4w).2.processed_files
        + pathCount ("p".toList)
            ((replace none fsEx4 opEx4w).2.failed_files.map Prod.fst) ≤ 1) :=
  ⟨(C4_each_target_once none fsEx4 opEx4w).1,
   (C4_each_target_once none fsEx4 opEx4w).2 (by decide) ("p".toList)⟩

/-- C5: when the user-supplied pattern fails to compile (the regex oracle is
`none`, i.e. the `re.error` branch is taken), filename matching, content-line
matching and replace substitution all return the literal-fallback result —
the exception is absorbed and never reaches the caller. -/
theorem C5_compile_failure_falls_back :
    (∀ (filename pat : Str) (cs : Bool),
      matches_filename none filename pat true cs = simple_match filename pat cs)
    ∧ (∀ (line pat : Str) (cs : Bool),
      find_line_matches none line pat true cs = simple_line_search line pat cs)
    ∧ (∀ (text pat repl : Str) (cs : Bool),
      perform_replacement none text pat repl true cs
        = simple_replacement text pat repl cs) :=
  ⟨fun _ _ _ => rfl, fun _ _ _ => rfl, fun _ _ _ _ => rfl⟩

/-- C6: a search cancelled after `k` entries (with `0 < k` and fewer than all
entries processed) stops at the next per-entry check, returns a partial
result whose `total_files_scanned` equals `k` (strictly between `0` and the
entry count), and its `search_duration` is finalized by the `finally` block
regardless of cancellation. -/
theorem C6_cancelled_partial_result (rs : Option (Str → Bool))
    (rf : Option (Str → List Occ)) (entries : List Entry) (c : SearchCriteria)
    (k : Nat) (elapsed : Int) (h1 : 0 < k) (h2 : k < entries.length) :
    (search rs rf entries c (some k) elapsed).total_files_scanned = k
    ∧ 0 < (search rs rf entries c (some k) elapsed).total_files_scanned
    ∧ (search rs rf entries c (some k) elapsed).total_files_scanned
        < entries.length
    ∧ (search rs rf entries c (some k) elapsed).search_duration = elapsed := by
  unfold search
  dsimp only
  have h := searchLoop_cancel_scanned rs rf c k entries 0
    { matchesList := [], search_duration := 0, total_files_scanned := 0 }
    (Nat.zero_le k)
  simp only at h
  refine ⟨by omega, by omega, by omega, rfl⟩

/-- C6 witness: cancelling after one of two entries. -/
theorem C6_cancelled_partial_result_witness :
    (search none none [dirEx2, fileEx2] critAll (some 1) 5).total_files_scanned = 1
    ∧ 0 < (search none none [dirEx2, fileEx2] critAll (some 1) 5).total_files_scanned
    ∧ (search none none [dirEx2, fileEx2] critAll (some 1) 5).total_files_scanned
        < ([dirEx2, fileEx2] : List Entry).length
    ∧ (search none none [dirEx2, fileEx2] critAll (some 1) 5).search_duration = 5 :=
  C6_cancelled_partial_result none none [dirEx2, fileEx2] critAll 1 5
    (by decide) (by decide)

/-- C7 counterexample: replacing `"a"` by `"aa"` on content `"a"` gives
`"aa"`; running the same operation again performs two further replacements,
so the second-run `total_replacements` is not `0`. -/
theorem C7_counterexample :
    (replace none (replace none fsEx7 opEx7).1 opEx7).2.total_replacements ≠ 0 := by
  decide

/-- C7 (amended): a file whose computed replacement count is `0` is left
untouched and recorded as a success with zero replacements (final conjunct);
consequently, re-running an operation is idempotent *provided* the pattern no
longer produces any replacement on the contents written by the first run: the
second run then changes no file, reports `total_replacements = 0`, and counts
every file as a success. -/
theorem C7_second_run_zero (rsubn : Option (Str → Str × Nat)) (fs : FS)
    (op : ReplaceOperation)
    (H : ∀ fm ∈ op.target_files, ∃ c,
      lookupFS (replace rsubn fs op).1 fm.file_path = some c ∧
      (perform_replacement rsubn c op.search_pattern op.replace_text
        op.use_regex op.case_sensitive).2 = 0) :
    (replace rsubn (replace rsubn fs op).1 op).1 = (replace rsubn fs op).1
    ∧ (replace rsubn (replace rsubn fs op).1 op).2.total_replacements = 0
    ∧ (replace rsubn (replace rsubn fs op).1 op).2.success_count = op.file_count
    ∧ ∀ (st : FS × ReplaceResult) (fm : FileMatch) (content : Str),
        lookupFS st.1 fm.file_path = some content →
        (perform_replacement rsubn content op.search_pattern op.replace_text
          op.use_regex op.case_sensitive).2 = 0 →
        replaceStep rsubn op st fm = (st.1, add_success st.2 fm.file_path 0 none) := by
  generalize hg : (replace rsubn fs op).1 = fs1 at H ⊢
  have hfold := replace_foldl_no_occ rsubn op fs1 op.target_files
    { processed_files := [], failed_files := [], total_replacements := 0,
      backup_files := [] } H
  have hstats := foldl_add_success_stats op.target_files
    { processed_files := [], failed_files := [], total_replacements := 0,
      backup_files := [] }
  unfold replace
  rw [hfold]
  refine ⟨rfl, hstats.1, ?_, ?_⟩
  · simpa [ReplaceResult.success_count, ReplaceOperation.file_count] using hstats.2
  · intro st fm content hread hzero
    exact replaceStep_zero rsubn op st fm content hread hzero

/-- C7 witness: a one-file operation whose pattern does not occur, so both
hypothesis and conclusions evaluate concretely. -/
theorem C7_second_run_zero_witness :
    (replace none (replace none fsEx7w opEx7w).1 opEx7w).2.total_replacements = 0
    ∧ (replace none (replace none fsEx7w opEx7w).1 opEx7w).2.success_count
        = opEx7w.file_count := by
  have h := C7_second_run_zero none fsEx7w opEx7w (by
    intro fm hfm
    simp only [opEx7w, List.mem_singleton] at hfm
    subst hfm
    exact ⟨("ab".toList), by decide, by decide⟩)
  exact ⟨h.2.1, h.2.2.1⟩

/-- C10: `restore_from_backup` recognises only the literal `.bak` convention:
a backup path that neither ends in `.bak` nor contains `.bak.` yields `false`
and leaves the filesystem unchanged, and so does a conforming backup path
whose derived original does not exist. -/
theorem C10_restore_requires_bak_convention :
    (∀ (fs : FS) (p : Str),
      ¬ ((".bak".toList) <:+ p) →
      findFrom p (".bak.".toList) 0 = none →
      restore_from_backup fs p = (fs, false))
    ∧ (∀ (fs : FS) (p orig : Str),
      get_original_path_from_backup p = some orig →
      lookupFS fs orig = none →
      restore_from_backup fs p = (fs, false)) := by
  constructor
  · intro fs p hsuf hsub
    have hsuf2 : ¬ ((['.', 'b', 'a', 'k'] : Str) <:+ p) := hsuf
    have hsub2 : findFrom p (['.', 'b', 'a', 'k', '.'] : Str) 0 = none := hsub
    unfold restore_from_backup get_original_path_from_backup
    simp [hsuf2, hsub2]
  · intro fs p orig hderive hmissing
    unfold restore_from_backup
    rw [hderive]
    simp [hmissing]

/-- C10 witness: a non-conforming backup name, and a conforming one whose
original is absent. -/
theorem C10_restore_requires_bak_convention_witness :
    restore_from_backup [(("file.backup".toList), ("x".toList))]
        ("file.backup".toList)
      = ([(("file.backup".toList), ("x".toList))], false)
    ∧ restore_from_backup [] ("a.bak".toList) = ([], false) :=
  ⟨(C10_restore_requires_bak_convention).1 _ _ (by decide) (by decide),
   (C10_restore_requires_bak_convention).2 [] ("a.bak".toList) ("a".toList)
     (by decide) (by decide)⟩

theorem findFrom_some (s pat : Str) (start p : Nat)
    (h : findFrom s pat start = some p) :
    start ≤ p ∧ p + pat.length ≤ s.length := by
  unfold findFrom at h
  have hmem := List.mem_of_find?_eq_some h
  have hpred := List.find?_some h
  simp only [List.mem_map, List.mem_range] at hmem
  obtain ⟨i, hi, rfl⟩ := hmem
  refine ⟨by omega, ?_⟩
  have hpre : pat <+: s.drop (i + start) := List.isPrefixOf_iff_prefix.mp hpred
  have hlen := hpre.length_le
  rw [List.length_drop] at hlen
  omega

theorem simpleSearchAux_spec (line searchLine searchPat : Str) (patLen : Nat)
    (hsl : searchLine.length = line.length) (hsp : searchPat.length = patLen) :
    ∀ (fuel start : Nat),
      (simpleSearchAux line searchLine searchPat patLen fuel start).Pairwise
          (fun a b => a.start < b.start)
      ∧ ∀ o ∈ simpleSearchAux line searchLine searchPat patLen fuel start,
          start ≤ o.start
          ∧ o.stop = o.start + patLen
          ∧ o.stop ≤ line.length
          ∧ o.before = takeLast 20 (line.take o.start)
          ∧ o.after = (line.drop o.stop).take 20
  | 0, start => ⟨List.Pairwise.nil, by intro o ho; cases ho⟩
  | fuel + 1, start => by
    rw [simpleSearchAux]
    cases hf : findFrom searchLine searchPat start with
    | none => exact ⟨List.Pairwise.nil, by intro o ho; cases ho⟩
    | some pos =>
      have hb := findFrom_some searchLine searchPat start pos hf
      have ih := simpleSearchAux_spec line searchLine searchPat patLen hsl hsp
        fuel (pos + 1)
      constructor
      · refine List.Pairwise.cons ?_ ih.1
        intro b hb2
        have hge := (ih.2 b hb2).1
        simp only
        omega
      · intro o ho
        rcases List.mem_cons.mp ho with rfl | hmem
        · refine ⟨hb.1, rfl, ?_, rfl, rfl⟩
          simp only
          omega
        · have h2 := ih.2 o hmem
          exact ⟨by omega, h2.2.1, h2.2.2.1, h2.2.2.2.1, h2.2.2.2.2⟩

/-- C3 counterexample: in literal mode the scan advances only one character
past each match start (`start = pos + 1`), so for pattern `"aa"` on line
`"aaa"` the two returned occurrences `[0,2)` and `[1,3)` overlap, refuting
the non-overlapping part of the claim. -/
theorem C3_counterexample :
    ((simple_line_search ("aaa".toList) ("aa".toList) true).map
        (fun o => (o.start, o.stop))) = [(0, 2), (1, 3)]
    ∧ ¬ ((simple_line_search ("aaa".toList) ("aa".toList) true).Pairwise
        (fun a b => a.stop ≤ b.start)) := by decide

/-- C3 (amended): literal-mode `findAll` (used when `use_regex` is false or
regex compilation fails) returns occurrences in strictly increasing `start`
order — but they may overlap, since the scan advances only one character past
each match start — and each occurrence's `context_before`/`context_after` are
exactly the at-most-20 characters immediately before the match start and
after the match end, clipped at the line boundaries. -/
theorem C3_literal_occurrences (line pat : Str) (cs : Bool) :
    ((simple_line_search line pat cs).map Occ.start).Pairwise (· < ·)
    ∧ ∀ o ∈ simple_line_search line pat cs,
        o.stop = o.start + pat.length
        ∧ o.stop ≤ line.length
        ∧ o.before <:+ line.take o.start
        ∧ o.before.length = min 20 o.start
        ∧ o.after <+: line.drop o.stop
        ∧ o.after.length = min 20 (line.length - o.stop) := by
  have main : ∀ (sl sp : Str), sl.length = line.length → sp.length = pat.length →
      ((simpleSearchAux line sl sp pat.length (sl.length + 2) 0).map Occ.start).Pairwise (· < ·)
      ∧ ∀ o ∈ simpleSearchAux line sl sp pat.length (sl.length + 2) 0,
          o.stop = o.start + pat.length
          ∧ o.stop ≤ line.length
          ∧ o.before <:+ line.take o.start
          ∧ o.before.length = min 20 o.start
          ∧ o.after <+: line.drop o.stop
          ∧ o.after.length = min 20 (line.length - o.stop) := by
    intro sl sp hsl hsp
    have h := simpleSearchAux_spec line sl sp pat.length hsl hsp (sl.length + 2) 0
    constructor
    · exact List.pairwise_map.mpr h.1
    · intro o ho
      obtain ⟨-, hstop, hle, hbef, haft⟩ := h.2 o ho
      have hstart_le : o.start ≤ line.length := by omega
      refine ⟨hstop, hle, ?_, ?_, ?_, ?_⟩
      · rw [hbef]
        exact List.drop_suffix _ _
      · rw [hbef]
        unfold takeLast
        rw [List.length_drop, List.length_take]
        omega
      · rw [haft]
        exact List.take_prefix _ _
      · rw [haft]
        rw [List.length_take, List.length_drop]
  unfold simple_line_search
  cases cs
  · simpa using main (pyLower line) (pyLower pat)
      (by simp [pyLower]) (by simp [pyLower])
  · simpa using main line pat rfl rfl

theorem progressBody_lower (total : Nat) :
    ∀ (l : List Entry) (p : Nat), ∀ x ∈ progressBody total l p,
      10 + ((p + 1) * 80) / total ≤ x
  | [], p, x, hx => absurd hx (by rw [progressBody]; intro h; cases h)
  | e :: rest, p, x, hx => by
    rw [progressBody] at hx
    cases hg : get_file_info e with
    | none =>
      simp only [hg] at hx
      exact progressBody_lower total rest p x hx
    | some fi =>
      simp only [hg] at hx
      rcases List.mem_cons.mp hx with rfl | hmem
      · exact Nat.le_refl _
      · have hr := progressBody_lower total rest (p + 1) x hmem
        have hmono : ((p + 1) * 80) / total ≤ ((p + 1 + 1) * 80) / total :=
          Nat.div_le_div_right (Nat.mul_le_mul_right 80 (by omega))
        omega

theorem progressBody_le90 (total : Nat) (htot : 0 < total) :
    ∀ (l : List Entry) (p : Nat), p + l.length ≤ total →
      ∀ x ∈ progressBody total l p, x ≤ 90
  | [], p, _, x, hx => absurd hx (by rw [progressBody]; intro h; cases h)
  | e :: rest, p, hle, x, hx => by
    rw [progressBody] at hx
    simp only [List.length_cons] at hle
    cases hg : get_file_info e with
    | none =>
      simp only [hg] at hx
      exact progressBody_le90 total htot rest p (by omega) x hx
    | some fi =>
      simp only [hg] at hx
      rcases List.mem_cons.mp hx with rfl | hmem
      · have hb : (p + 1) * 80 ≤ total * 80 :=
          Nat.mul_le_mul_right 80 (by omega)
        have hdiv : ((p + 1) * 80) / total ≤ (total * 80) / total :=
          Nat.div_le_div_right hb
        have hcancel : total * 80 / total = 80 :=
          Nat.mul_div_cancel_left 80 htot
        omega
      · exact progressBody_le90 total htot rest (p + 1) (by omega) x hmem

theorem progressBody_pairwise (total : Nat) :
    ∀ (l : List Entry) (p : Nat), (progressBody total l p).Pairwise (· ≤ ·)
  | [], p => by rw [progressBody]; exact List.Pairwise.nil
  | e :: rest, p => by
    rw [progressBody]
    cases hg : get_file_info e with
    | none =>
      simp only [hg]
      exact progressBody_pairwise total rest p
    | some fi =>
      simp only [hg]
      refine List.Pairwise.cons ?_ (progressBody_pairwise total rest (p + 1))
      intro b hbm
      have hr := progressBody_lower total rest (p + 1) b hbm
      have hmono : ((p + 1) * 80) / total ≤ ((p + 1 + 1) * 80) / total :=
        Nat.div_le_div_right (Nat.mul_le_mul_right 80 (by omega))
      omega

theorem progress_assembled (total : Nat) (htot : 0 < total) (l : List Entry)
    (hl : l.length ≤ total) (tail : List Nat)
    (htail : tail = [] ∨ tail = [100]) :
    (0 :: 10 :: (progressBody total l 0 ++ tail)).Pairwise (· ≤ ·)
    ∧ ∀ x ∈ 0 :: 10 :: (progressBody total l 0 ++ tail), x ≤ 100 := by
  constructor
  · refine List.Pairwise.cons ?_ (List.Pairwise.cons ?_ ?_)
    · intro x _
      exact Nat.zero_le x
    · intro x hx
      rcases List.mem_append.mp hx with hb | ht
      · have hlow := progressBody_lower total l 0 x hb
        exact Nat.le_trans (Nat.le_add_right 10 _) hlow
      · rcases htail with rfl | rfl
        · cases ht
        · have hx100 : x = 100 := List.mem_singleton.mp ht
          omega
    · rw [List.pairwise_append]
      refine ⟨progressBody_pairwise total l 0, ?_, ?_⟩
      · rcases htail with rfl | rfl
        · exact List.Pairwise.nil
        · exact List.pairwise_singleton _ _
      · intro x hxb y hyt
        have hx90 := progressBody_le90 total htot l 0 (by omega) x hxb
        rcases htail with rfl | rfl
        · cases hyt
        · have hy100 : y = 100 := List.mem_singleton.mp hyt
          omega
  · intro x hx
    rcases List.mem_cons.mp hx with rfl | hx
    · omega
    rcases List.mem_cons.mp hx with rfl | hx
    · omega
    rcases List.mem_append.mp hx with hb | ht
    · have hx90 := progressBody_le90 total htot l 0 (by omega) x hb
      omega
    · rcases htail with rfl | rfl
      · cases ht
      · have hx100 : x = 100 := List.mem_singleton.mp ht
        omega

/-- C9: within one run of the asynchronous search worker the emitted progress
percentages are monotonically non-decreasing, starting at `0` before
enumeration, `10` right after file-list materialisation (when any file was
enumerated), every per-file value staying within `0`–`100` (the per-file
values themselves lie in `10`–`90` by `progressBody_le90`), and ending at
`100` exactly on natural (non-cancelled) completion. -/
theorem C9_progress_checkpoints (entries : List Entry) (cancelAt : Option Nat) :
    (progressSeq entries cancelAt).Pairwise (· ≤ ·)
    ∧ (progressSeq entries cancelAt).head? = some 0
    ∧ (entries ≠ [] → (progressSeq entries cancelAt).get? 1 = some 10)
    ∧ (cancelAt = none → (progressSeq entries cancelAt).getLast? = some 100)
    ∧ (∀ x ∈ progressSeq entries cancelAt, x ≤ 100) := by
  by_cases h0 : entries.length = 0
  · have he : entries = [] := List.length_eq_zero.mp h0
    subst he
    refine ⟨?_, rfl, ?_, ?_, ?_⟩
    · exact (by decide : ([0, 100] : List Nat).Pairwise (· ≤ ·))
    · intro hne
      exact absurd rfl hne
    · intro _
      exact (rfl : ([0, 100] : List Nat).getLast? = some 100)
    · exact (by decide : ∀ x ∈ ([0, 100] : List Nat), x ≤ 100)
  · have htot : 0 < entries.length := Nat.pos_of_ne_zero h0
    cases cancelAt with
    | none =>
      have hrw : progressSeq entries none
          = 0 :: 10 :: (progressBody entries.length
              (entries.take entries.length) 0 ++ [100]) := by
        unfold progressSeq
        rw [if_neg h0]
        rfl
      have hl : (entries.take entries.length).length ≤ entries.length := by
        rw [List.length_take]
        omega
      have hasm := progress_assembled entries.length htot
        (entries.take entries.length) hl [100] (Or.inr rfl)
      refine ⟨?_, ?_, ?_, ?_, ?_⟩
      · rw [hrw]
        exact hasm.1
      · rw [hrw]
        rfl
      · intro _
        rw [hrw]
        rfl
      · intro _
        rw [hrw]
        have hcat : 0 :: 10 :: (progressBody entries.length
              (entries.take entries.length) 0 ++ [100])
            = (0 :: 10 :: progressBody entries.length
                (entries.take entries.length) 0) ++ [100] := by
          simp
        rw [hcat, List.getLast?_concat]
      · rw [hrw]
        exact hasm.2
    | some k =>
      have hrw : progressSeq entries (some k)
          = 0 :: 10 :: (progressBody entries.length
              (entries.take (min k entries.length)) 0 ++ []) := by
        unfold progressSeq
        rw [if_neg h0]
        rfl
      have hl : (entries.take (min k entries.length)).length ≤ entries.length := by
        rw [List.length_take]
        omega
      have hasm := progress_assembled entries.length htot
        (entries.take (min k entries.length)) hl [] (Or.inl rfl)
      refine ⟨?_, ?_, ?_, ?_, ?_⟩
      · rw [hrw]
        exact hasm.1
      · rw [hrw]
        rfl
      · intro _
        rw [hrw]
        rfl
      · intro hcn
        cases hcn
      · rw [hrw]
        exact hasm.2

/-- C9 witness: the checkpoint facts evaluated on a one-file uncancelled
search. -/
theorem C9_progress_checkpoints_witness :
    (progressSeq [fileEx2] none).Pairwise (· ≤ ·)
    ∧ (progressSeq [fileEx2] none).get? 1 = some 10
    ∧ (progressSeq [fileEx2] none).getLast? = some 100 :=
  ⟨(C9_progress_checkpoints [fileEx2] none).1,
   (C9_progress_checkpoints [fileEx2] none).2.2.1 (by decide),
   (C9_progress_checkpoints [fileEx2] none).2.2.2.1 rfl⟩

theorem toLower_eq_dot_iff (c : Char) : c.toLower = '.' ↔ c = '.' := by
  constructor
  · intro h
    have hdef : c.toLower
        = (if c.toNat ≥ 65 ∧ c.toNat ≤ 90 then Char.ofNat (c.toNat + 32) else c) := rfl
    rw [hdef] at h
    split at h
    · next hcond =>
      exfalso
      obtain ⟨h1, h2⟩ := hcond
      generalize hm : c.toNat = m at h1 h2 h
      interval_cases m <;> exact absurd h (by decide)
    · exact h
  · intro h
    subst h
    decide

theorem pyLower_normalize_comm (e : Str) :
    pyLower (if e.head? = some '.' then e else '.' :: e)
      = (if (pyLower e).head? = some '.' then pyLower e else '.' :: pyLower e) := by
  have hh : (pyLower e).head? = e.head?.map Char.toLower := by
    unfold pyLower
    cases e <;> rfl
  by_cases h : e.head? = some '.'
  · rw [if_pos h, if_pos]
    rw [hh, h]
    decide
  · rw [if_neg h, if_neg]
    · have hdot : ('.' : Char).toLower = '.' := by decide
      unfold pyLower
      rw [List.map_cons, hdot]
    · rw [hh]
      intro hc
      cases he : e.head? with
      | none =>
        rw [he] at hc
        cases hc
      | some c =>
        rw [he] at hc
        have hlc : Char.toLower c = '.' := by simpa using hc
        exact h (by rw [he]; exact congrArg some ((toLower_eq_dot_iff c).mp hlc))

theorem normalize_map_lower :
    ∀ l : List Str,
      (normalizeExtensions l).map pyLower = normalizeExtensions (l.map pyLower)
  | [] => rfl
  | e :: rest => by
    have hrest := normalize_map_lower rest
    unfold normalizeExtensions at hrest ⊢
    simp only [List.map_cons]
    rw [pyLower_normalize_comm e, hrest]

/-- C8: the criteria filter's inclusion decision is invariant under changing
the letter case and the order of the raw extension list handed to the
`SearchCriteria` constructor (extension comparison lowers both sides and is a
membership test), and construction normalises every extension to carry a
leading dot. -/
theorem C8_extension_case_insensitive (rs : Option (Str → Bool)) (e : Entry)
    (info : FileInfo) (fp : Str) (df dt : Option Int) (cp : Str)
    (ur cs isub : Bool) (l1 l2 : List Str)
    (hperm : (l1.map pyLower).Perm (l2.map pyLower)) :
    matches_criteria rs e info (mkSearchCriteria fp l1 df dt cp ur cs isub)
      = matches_criteria rs e info (mkSearchCriteria fp l2 df dt cp ur cs isub)
    ∧ ∀ (exts : List Str), ∀ x ∈ normalizeExtensions exts, x.head? = some '.' := by
  constructor
  · have hd : ((normalizeExtensions l1).map pyLower).Perm
        ((normalizeExtensions l2).map pyLower) := by
      rw [normalize_map_lower, normalize_map_lower]
      unfold normalizeExtensions
      exact hperm.map _
    have hlen : (normalizeExtensions l1).length = (normalizeExtensions l2).length := by
      have hl := hd.length_eq
      simpa using hl
    unfold matches_criteria mkSearchCriteria
    dsimp only
    by_cases h1 : normalizeExtensions l1 = []
    · have h2 : normalizeExtensions l2 = [] :=
        List.length_eq_zero.mp (by rw [← hlen, h1]; rfl)
      rw [if_pos h1, if_pos h2]
    · have h2 : ¬ normalizeExtensions l2 = [] := by
        intro hh
        exact h1 (List.length_eq_zero.mp (by rw [hlen, hh]; rfl))
      rw [if_neg h1, if_neg h2]
      have hdec : decide (pyLower e.suffix ∈ (normalizeExtensions l1).map pyLower)
          = decide (pyLower e.suffix ∈ (normalizeExtensions l2).map pyLower) :=
        decide_eq_decide.mpr hd.mem_iff
      rw [hdec]
  · intro exts x hx
    unfold normalizeExtensions at hx
    obtain ⟨y, -, rfl⟩ := List.mem_map.mp hx
    by_cases hy : y.head? = some '.'
    · rw [if_pos hy]
      exact hy
    · rw [if_neg hy]
      rfl

/-- C8 witness: extensions `[".TXT"]` and `[".txt"]` yield the same decision
on a concrete file. -/
theorem C8_extension_case_insensitive_witness :
    ((([(".TXT".toList)] : List Str).map pyLower).Perm
      (([(".txt".toList)] : List Str).map pyLower))
    ∧ matches_criteria none fileEx2 ⟨0, 0⟩
        (mkSearchCriteria [] [(".TXT".toList)] none none [] false false true)
      = matches_criteria none fileEx2 ⟨0, 0⟩
        (mkSearchCriteria [] [(".txt".toList)] none none [] false false true) :=
  ⟨by decide,
   (C8_extension_case_insensitive none fileEx2 ⟨0, 0⟩ [] none none []
     false false true [(".TXT".toList)] [(".txt".toList)] (by decide)).1⟩

/-- C3 witness: the amended statement evaluated on the line `"xAbyab"` with
pattern `"ab"` in case-insensitive literal mode, at its first occurrence. -/
theorem C3_literal_occurrences_witness :
    ((simple_line_search ("xAbyab".toList) ("ab".toList) false).map
        Occ.start).Pairwise (· < ·)
    ∧ ({ text := ("Ab".toList), start := 1, stop := 3, before := ("x".toList),
         after := ("yab".toList) } : Occ).stop
      = ({ text := ("Ab".toList), start := 1, stop := 3, before := ("x".toList),
           after := ("yab".toList) } : Occ).start + ("ab".toList).length :=
  ⟨(C3_literal_occurrences ("xAbyab".toList) ("ab".toList) false).1,
   ((C3_literal_occurrences ("xAbyab".toList) ("ab".toList) false).2
     { text := ("Ab".toList), start := 1, stop := 3, before := ("x".toList),
       after := ("yab".toList) } (by decide)).1⟩
